import Mathlib

/-
Verification of the vector-sync subsystem of the obsidian-mcp-macros plugin
(`VectorSyncManager` and its helpers in the TypeScript source).

The embedding models:
  - JavaScript strings as Lean `String` / `List Char`;
  - JavaScript objects built by spread syntax as association lists where a
    later binding of the same key wins on lookup (`JsObject`, `objGet`);
  - the Qdrant collection as a list of points, with upsert = insert-or-replace
    by id and filtered search = filter + take limit (the similarity ordering of
    a filtered search is irrelevant here: the only fact used is that when at
    most `limit` points match the filter, all of them are returned);
  - network calls (OpenAI embeddings, Qdrant search answers) as oracle
    functions supplied as parameters; a failed call is `none` / `Except.error`;
  - thrown JavaScript exceptions as `Except.error`; a `try`/`catch` that
    swallows the exception is modelled by the corresponding total function;
  - `console.error` / `console.warn` calls that matter to the claims as
    `LogEvent`s appended to a log trace.

Loops whose iteration count is bounded by the input length are written with an
explicit fuel argument (always instantiated with a sufficient bound) so that
all definitions reduce in the kernel.
-/

/-- Decidable equality for `Except`, so that concrete runs of the fallible
operations can be settled by `decide`. -/
instance {ε α : Type} [DecidableEq ε] [DecidableEq α] : DecidableEq (Except ε α) := fun a b =>
  match a, b with
  | .ok x, .ok y =>
    if h : x = y then isTrue (by rw [h]) else isFalse (by intro hc; cases hc; exact h rfl)
  | .error x, .error y =>
    if h : x = y then isTrue (by rw [h]) else isFalse (by intro hc; cases hc; exact h rfl)
  | .ok _, .error _ => isFalse (by intro hc; cases hc)
  | .error _, .ok _ => isFalse (by intro hc; cases hc)

namespace VectorSync

/-! ## Basic character-list helpers (JavaScript string primitives) -/

/-- Boolean test that the first list is an initial segment of the second. -/
def leadsWith : List Char → List Char → Bool
  | [], _ => true
  | _ :: _, [] => false
  | a :: as, b :: bs => a == b && leadsWith as bs

/-- Model of JavaScript `str.split(sep)` for a single-character separator:
splits into the (possibly empty) groups between occurrences of `sep`.
`"".split(sep)` gives `[""]`, matching JavaScript. -/
def splitOnChar (sep : Char) : List Char → List (List Char)
  | [] => [[]]
  | c :: rest =>
    if c == sep then [] :: splitOnChar sep rest
    else
      match splitOnChar sep rest with
      | [] => [[c]]
      | g :: gs => (c :: g) :: gs

/-- Whitespace test used by the model of JavaScript `String.prototype.trim`
(the common ASCII whitespace characters; the further Unicode space characters
JavaScript also trims never occur in the inputs analysed here). -/
def isWsChar (c : Char) : Bool :=
  c == ' ' || c == '\t' || c == '\n' || c == '\r'

/-- Model of JavaScript `str.trim()`: drop whitespace from both ends. -/
def trimChars (l : List Char) : List Char :=
  ((l.dropWhile isWsChar).reverse.dropWhile isWsChar).reverse

/-- Index of the first occurrence of `needle` in `hay` starting the count at
`i`, or `none`. Used to model the lazy front-matter regex. -/
def findSubAux (needle : List Char) : List Char → Nat → Option Nat
  | [], i => if needle.isEmpty then some i else none
  | c :: rest, i =>
    if leadsWith needle (c :: rest) then some i else findSubAux needle rest (i + 1)

/-- Model of JavaScript `str.replace(/pat/g, rep)` for a literal nonempty
pattern: left-to-right, non-overlapping, and the replacement text is not
rescanned. The fuel bounds the number of scan steps; each step consumes at
least one input character, so `input.length + 1` fuel is always sufficient. -/
def replaceAllFuel (pat rep : List Char) : Nat → List Char → List Char
  | 0, l => l
  | _ + 1, [] => []
  | fuel + 1, c :: rest =>
    if !pat.isEmpty && leadsWith pat (c :: rest) then
      rep ++ replaceAllFuel pat rep fuel ((c :: rest).drop pat.length)
    else
      c :: replaceAllFuel pat rep fuel rest

/-- Global literal replacement on strings (see `replaceAllFuel`). -/
def replaceAllStr (s pat rep : String) : String :=
  String.mk (replaceAllFuel pat.data rep.data (s.data.length + 1) s.data)

/-- Model of JavaScript `str.replace('.', '')`: string-pattern `replace`
removes only the first occurrence. Used for `rule.pattern.replace('.', '')`
in the extension rule. -/
def removeFirstDot : List Char → List Char
  | [] => []
  | c :: rest => if c == '.' then rest else c :: removeFirstDot rest

/-- Concatenation of groups with `':'` between them: JavaScript
`valueParts.join(':')`, used when re-assembling a front-matter value. -/
def joinColon : List (List Char) → List Char
  | [] => []
  | [g] => g
  | g :: gs => g ++ ':' :: joinColon gs

/-! ## Data model -/

/-- Values stored in modelled JavaScript objects: the source only ever stores
strings and (natural) numbers in the payloads and metadata considered here. -/
inductive JsonVal where
  | str (s : String)
  | num (n : Nat)
deriving DecidableEq

/-- A JavaScript object built with object-literal and spread syntax, as an
association list in binding order; on lookup a later binding wins, matching
the spread semantics `{a, ...b}`. -/
abbrev JsObject := List (String × JsonVal)

/-- Lookup in a `JsObject`: the last binding of the key wins. -/
def objGet (o : JsObject) (k : String) : Option JsonVal :=
  match o with
  | [] => none
  | (k2, v) :: rest =>
    match objGet rest k with
    | some v2 => some v2
    | none => if k2 == k then some v else none

/-- The `type` field of a `SyncRule` (source interface `SyncRule.type`). -/
inductive RuleType where
  | extension
  | folder
  | file
  | pattern
deriving DecidableEq

/-- Source interface `SyncRule`. The optional `exclude?: string[]` field is
modelled as a list, with `[]` for an absent field (the source only ever reads
it with `rule.exclude?.some(...)`, where both behave identically). -/
structure SyncRule where
  id : String
  name : String
  enabled : Bool
  ruleType : RuleType
  pattern : String
  exclude : List String
deriving DecidableEq

/-- Embedding backend selector (source union `'openai' | 'local' | 'huggingface'`;
`local` is a Lean keyword, hence `localEmbed`). -/
inductive EmbedModel where
  | openai
  | localEmbed
  | huggingface
deriving DecidableEq

/-- Source interface `VectorSyncSettings` (the fields the vector-sync pipeline
reads; the status-bar booleans only drive UI notifications). -/
structure VectorSyncSettings where
  enabled : Bool
  qdrantUrl : String
  qdrantApiKey : Option String
  collectionName : String
  dimension : Nat
  syncRules : List SyncRule
  chunkSize : Nat
  overlapSize : Nat
  embeddingModel : EmbedModel
  embeddingApiKey : Option String
deriving DecidableEq

/-- The parts of an Obsidian `TFile` the sync pipeline reads
(`file.path`, `file.basename`, `file.extension`, `file.stat.mtime`). -/
structure TFile where
  path : String
  basename : String
  extension : String
  mtime : Nat
deriving DecidableEq

/-- Source interface `ChunkData`. -/
structure ChunkData where
  text : String
  index : Nat
  metadata : JsObject
deriving DecidableEq

/-- A stored Qdrant point (`{id, vector, payload}`). Vector components are
modelled as integers: no claim performs arithmetic on them, they are only
produced by the embedding oracle and compared for identity. -/
structure QdrantPoint where
  id : String
  vector : List Int
  payload : JsObject
deriving DecidableEq

/-- Source interface `VectorRecord` (`{id, vector, metadata}`); `metadata`
becomes the Qdrant payload on upsert. -/
structure VectorRecord where
  id : String
  vector : List Int
  metadata : JsObject
deriving DecidableEq

/-- Aggregate status published through `plugin.updateStatusBar`. -/
inductive SyncStatus where
  | ready
  | syncing (current total : Nat)
  | error
deriving DecidableEq

/-- The `console.error` / `console.warn` calls of the pipeline that the claims
talk about, as trace events. -/
inductive LogEvent where
  | noApiKeyError
  | embedApiError
  | localNotImplementedWarn
  | hfNotImplementedWarn
  | upsertError
  | qdrantDeleteError
  | indexError
deriving DecidableEq

/-- The mutable state of `VectorSyncManager` together with the modelled Qdrant
server: client handle presence, the server's collections (name and dimension),
the stored points, the in-flight `syncQueue` (a `Set<string>`, modelled as a
duplicate-free list in insertion order), the last published status, and the
log trace. -/
structure SyncState where
  clientInit : Bool
  collections : List (String × Nat)
  store : List QdrantPoint
  queue : List String
  status : SyncStatus
  log : List LogEvent
deriving DecidableEq

/-! ## Rule engine: glob translation, regex model, rule evaluation

Source `matchesPattern` builds a regex string with three global string
replacements (`**` → `.*`, then `*` → `[^/]*`, then `?` → `.`), wraps it in
`^...$` and calls `new RegExp(...).test(filePath)`. Note the second
replacement rewrites the `*` inside any `.*` produced by the first.
-/

/-- The regex source text the code builds from a glob pattern, before the
`^`/`$` anchors are added:
`pattern.replace(/\*\*/g,'.*').replace(/\*/g,'[^/]*').replace(/\?/g,'.')`. -/
def globToRegexStr (pattern : String) : String :=
  replaceAllStr (replaceAllStr (replaceAllStr pattern "**" ".*") "*" "[^/]*") "?" "."

/-- A regex atom of the dialect reachable from the glob translation:
a literal character, `.`, or a character class `[...]` / `[^...]`. -/
inductive RAtom where
  | lit (c : Char)
  | anyChar
  | cls (neg : Bool) (cs : List Char)
deriving DecidableEq

/-- An atom with its quantifier (none, `*` or `+`). -/
inductive RPiece where
  | once (a : RAtom)
  | star (a : RAtom)
  | plus (a : RAtom)
deriving DecidableEq

/-- Collect the member characters of a character class up to the closing `]`;
`none` models the JavaScript SyntaxError for an unterminated class. -/
def collectClass : List Char → Option (List Char × List Char)
  | [] => none
  | c :: rest =>
    if c == ']' then some ([], rest)
    else (collectClass rest).map (fun p => (c :: p.1, p.2))

/-- Parse one atom. Metacharacters outside the dialect the glob translation
produces (`(`, `)`, `|`, `\`, `{`, `}`, mid-pattern `^`/`$`, and a quantifier
with nothing to repeat) are reported as errors; on every such input analysed
here — in particular an unbalanced `(` — JavaScript `new RegExp` also throws
a SyntaxError. -/
def parseAtom : List Char → Except String (RAtom × List Char)
  | [] => .error "unexpected end of regex"
  | c :: rest =>
    if c == '.' then .ok (.anyChar, rest)
    else if c == '[' then
      match rest with
      | '^' :: rest2 =>
        match collectClass rest2 with
        | some (cs, rest3) => .ok (.cls true cs, rest3)
        | none => .error "unterminated character class"
      | _ =>
        match collectClass rest with
        | some (cs, rest3) => .ok (.cls false cs, rest3)
        | none => .error "unterminated character class"
    else if c == '*' || c == '+' || c == '?' then .error "nothing to repeat"
    else if c == '(' || c == ')' || c == '|' || c == '\\' || c == '{' || c == '}'
        || c == '^' || c == '$' then .error "invalid or unsupported regex construct"
    else .ok (.lit c, rest)

/-- Parse a whole regex fragment: a sequence of atoms, each optionally
followed by `*` or `+`. Each step consumes at least one character, so
`input.length + 1` fuel always suffices. -/
def parseRegexAux : Nat → List Char → Except String (List RPiece)
  | 0, _ => .error "out of fuel"
  | _ + 1, [] => .ok []
  | fuel + 1, l => do
    let (a, rest) ← parseAtom l
    match rest with
    | '*' :: rest2 => do
      let ps ← parseRegexAux fuel rest2
      .ok (.star a :: ps)
    | '+' :: rest2 => do
      let ps ← parseRegexAux fuel rest2
      .ok (.plus a :: ps)
    | _ => do
      let ps ← parseRegexAux fuel rest
      .ok (.once a :: ps)

/-- Parse a regex source string; `Except.error` models the SyntaxError thrown
by `new RegExp` on invalid input. -/
def parseRegex (s : String) : Except String (List RPiece) :=
  parseRegexAux (s.data.length + 1) s.data

/-- Whether an atom matches one character. JavaScript `.` (without the `s`
flag) matches every character except the four line terminators. -/
def atomMatches (a : RAtom) (c : Char) : Bool :=
  match a with
  | .lit d => c == d
  | .anyChar => !(c == '\n' || c == '\r' || c == '\u2028' || c == '\u2029')
  | .cls neg cs => if neg then !(cs.contains c) else cs.contains c

/-- Backtracking full-match of a piece sequence against a character list.
Greedy versus lazy choice cannot change the boolean result for these pure
regular patterns, so this models `RegExp.test` faithfully. Each recursive
call shrinks pieces-remaining + characters-remaining, so
`pieces + chars + 1` fuel always suffices. -/
def matchPieces : Nat → List RPiece → List Char → Bool
  | 0, _, _ => false
  | _ + 1, [], s => s.isEmpty
  | fuel + 1, .once a :: ps, s =>
    match s with
    | [] => false
    | c :: cs => atomMatches a c && matchPieces fuel ps cs
  | fuel + 1, .star a :: ps, s =>
    matchPieces fuel ps s ||
      match s with
      | [] => false
      | c :: cs => atomMatches a c && matchPieces fuel (.star a :: ps) cs
  | fuel + 1, .plus a :: ps, s =>
    match s with
    | [] => false
    | c :: cs => atomMatches a c && matchPieces fuel (.star a :: ps) cs

/-- Anchored (full) match: the source wraps the translated pattern in
`^...$`, so `test` succeeds exactly on a match of the whole path. -/
def regexFullMatch (ps : List RPiece) (s : List Char) : Bool :=
  matchPieces (ps.length + s.length + 1) ps s

/-- Source `matchesPattern(filePath, pattern)`: translate the glob, compile it
(`new RegExp` — `Except.error` models the uncaught SyntaxError on a malformed
result), and test the path against the anchored regex. -/
def matchesPattern (filePath pattern : String) : Except String Bool := do
  let ps ← parseRegex (globToRegexStr pattern)
  .ok (regexFullMatch ps filePath.data)

/-- Source `evaluateRule(file, rule)`. For `extension` the pattern's first
`.` is stripped and compared to `file.extension`; `folder` is a path-prefix
test (`file.path.startsWith(rule.pattern)`); `file` is exact path equality;
`pattern` delegates to `matchesPattern` (and can therefore throw). -/
def evaluateRule (file : TFile) (rule : SyncRule) : Except String Bool :=
  match rule.ruleType with
  | .extension => .ok (file.extension == String.mk (removeFirstDot rule.pattern.data))
  | .folder => .ok (leadsWith rule.pattern.data file.path.data)
  | .file => .ok (file.path == rule.pattern)
  | .pattern => matchesPattern file.path rule.pattern

/-- Source `rule.exclude?.some(pattern => this.matchesPattern(file.path, pattern))`:
left-to-right, short-circuiting, and an exception from `matchesPattern`
propagates. -/
def anyExcludeMatches (filePath : String) : List String → Except String Bool
  | [] => .ok false
  | p :: ps => do
    let b ← matchesPattern filePath p
    if b then .ok true else anyExcludeMatches filePath ps

/-- The rule-iteration loop of source `matchesSyncRules`: skip disabled
rules; on a match, check the rule's exclude patterns — if one matches,
continue with the remaining rules, otherwise return true; return false when
no rule is left. Exceptions from pattern matching propagate. -/
def matchesSyncRulesGo (file : TFile) : List SyncRule → Except String Bool
  | [] => .ok false
  | rule :: rest =>
    if !rule.enabled then matchesSyncRulesGo file rest
    else do
      let m ← evaluateRule file rule
      if m then do
        let ex ← anyExcludeMatches file.path rule.exclude
        if ex then matchesSyncRulesGo file rest else .ok true
      else matchesSyncRulesGo file rest

/-- Source `matchesSyncRules(file)`: false when vector sync is disabled,
otherwise the rule-iteration loop over `settings.syncRules`. -/
def matchesSyncRules (settings : VectorSyncSettings) (file : TFile) : Except String Bool :=
  if !settings.enabled then .ok false else matchesSyncRulesGo file settings.syncRules

/-! ## Chunker -/

/-- The structural metadata merged into every chunk's metadata:
`{...metadata, fileExtension: file.extension, totalChunks: ...}` — the spread
puts the front-matter bindings first, so the two structural fields win on a
key collision. -/
def mkChunkMeta (meta : JsObject) (ext : String) (total : Nat) : JsObject :=
  meta ++ [("fileExtension", JsonVal.str ext), ("totalChunks", JsonVal.num total)]

/-- The chunking loop of source `chunkContent`:
`for (let i = 0; i < textContent.length; i += chunkSize - overlapSize)` with
`text = textContent.slice(i, i + chunkSize)`,
`index = Math.floor(i / (chunkSize - overlapSize))` and
`totalChunks = Math.ceil(textContent.length / (chunkSize - overlapSize))`.
The fuel bounds the iteration count; since the step is at least 1 whenever
this is called, `text.length + 1` fuel is always sufficient. -/
def chunkGo (chunkSize step : Nat) (meta : JsObject) (ext : String) (text : List Char) :
    Nat → Nat → List ChunkData
  | 0, _ => []
  | fuel + 1, i =>
    if i < text.length then
      { text := String.mk ((text.drop i).take chunkSize)
        index := i / step
        metadata := mkChunkMeta meta ext ((text.length + step - 1) / step) }
        :: chunkGo chunkSize step meta ext text fuel (i + step)
    else []

/-- Windowing of a body text. When `overlapSize ≥ chunkSize` the source loop
never advances and hangs forever; that configuration is modelled as producing
no chunks, and every theorem about chunking assumes `overlapSize < chunkSize`. -/
def chunkBody (chunkSize overlapSize : Nat) (meta : JsObject) (ext : String)
    (text : List Char) : List ChunkData :=
  if chunkSize - overlapSize == 0 then []
  else chunkGo chunkSize (chunkSize - overlapSize) meta ext text (text.length + 1) 0

/-- Front-matter extraction: the source matches `/^---\n([\s\S]*?)\n---\n/`
against the content. The lazy group means: if the content starts with
`"---\n"`, the group is everything up to the first following `"\n---\n"`,
and the remainder after that delimiter is the body; with no such delimiter
(or no leading `"---\n"`) there is no match. -/
def extractFrontmatter (content : String) : Option (List Char × List Char) :=
  let cs := content.data
  if leadsWith ("---\n".data) cs then
    let rest := cs.drop 4
    match findSubAux ("\n---\n".data) rest 0 with
    | some i => some (rest.take i, rest.drop (i + 5))
    | none => none
  else none

/-- One front-matter line: `const [key, ...valueParts] = line.split(':')`;
the binding `metadata[key.trim()] = valueParts.join(':').trim()` happens only
when `key` is truthy (nonempty) and `valueParts` is nonempty. -/
def parseFMLine (line : List Char) : JsObject :=
  match splitOnChar ':' line with
  | [] => []
  | key :: valueParts =>
    if !key.isEmpty && !valueParts.isEmpty then
      [(String.mk (trimChars key), JsonVal.str (String.mk (trimChars (joinColon valueParts))))]
    else []

/-- All front-matter lines in order; a later binding of the same key
overwrites an earlier one, which `objGet`'s last-wins lookup reflects. -/
def parseFMLines : List (List Char) → JsObject
  | [] => []
  | line :: rest => parseFMLine line ++ parseFMLines rest

/-- The front-matter metadata object of a content string (empty when the
front-matter regex does not match). -/
def contentMetadata (content : String) : JsObject :=
  match extractFrontmatter content with
  | some (fm, _) => parseFMLines (splitOnChar '\n' fm)
  | none => []

/-- The body text the chunking loop runs over: the content with a matched
front-matter block removed, otherwise the whole content. -/
def contentBody (content : String) : List Char :=
  match extractFrontmatter content with
  | some (_, body) => body
  | none => content.data

/-- Source `chunkContent(content, file)`: extract front-matter, then window
the remaining body. -/
def chunkContent (settings : VectorSyncSettings) (content : String) (file : TFile) :
    List ChunkData :=
  chunkBody settings.chunkSize settings.overlapSize (contentMetadata content)
    file.extension (contentBody content)

/-! ## Embedding provider -/

/-- Source `generateOpenAIEmbedding(text)`: with no API key configured it logs
and returns `null`; otherwise it performs the network call — modelled by the
oracle `api : String → Option (List Int)` — and on any failure (non-ok
response or thrown fetch error, both funnelled through the `catch`) logs and
returns `null`. JavaScript treats the empty string as falsy, so a key of `""`
also counts as missing. -/
def generateOpenAIEmbedding (settings : VectorSyncSettings)
    (api : String → Option (List Int)) (text : String) :
    Option (List Int) × List LogEvent :=
  match settings.embeddingApiKey with
  | none => (none, [.noApiKeyError])
  | some k =>
    if k == "" then (none, [.noApiKeyError])
    else
      match api text with
      | some v => (some v, [])
      | none => (none, [.embedApiError])

/-- Source `generateEmbedding(text)`: dispatch on the configured backend;
`local` and `huggingface` are unimplemented placeholders that warn and return
`null`; its own `catch` means no exception ever escapes. -/
def generateEmbedding (settings : VectorSyncSettings)
    (api : String → Option (List Int)) (text : String) :
    Option (List Int) × List LogEvent :=
  match settings.embeddingModel with
  | .openai => generateOpenAIEmbedding settings api text
  | .localEmbed => (none, [.localNotImplementedWarn])
  | .huggingface => (none, [.hfNotImplementedWarn])

/-! ## Vector store client -/

/-- Qdrant upsert of one point: insert-or-replace by id. -/
def upsertPoint (store : List QdrantPoint) (p : QdrantPoint) : List QdrantPoint :=
  if store.any (fun q => q.id == p.id) then
    store.map (fun q => if q.id == p.id then p else q)
  else store ++ [p]

/-- Source `ensureCollection()`: no-op without a client; otherwise list the
collections and create `settings.collectionName` with `settings.dimension`
only when no collection of that name exists. An existing collection is left
alone without any dimension comparison, and the surrounding `try`/`catch`
swallows every backend error, so the call never fails. -/
def ensureCollection (settings : VectorSyncSettings) (client : Bool)
    (cols : List (String × Nat)) : List (String × Nat) :=
  if !client then cols
  else if cols.any (fun col => col.1 == settings.collectionName) then cols
  else cols ++ [(settings.collectionName, settings.dimension)]

/-- Source `upsertToQdrant` guarded by `upsertToVectorDb`'s `catch`: without a
client the thrown error is caught and logged (no state change); otherwise
ensure the collection exists and upsert the record as a point
(`payload = record.metadata`). -/
def upsertToVectorDb (settings : VectorSyncSettings) (st : SyncState)
    (r : VectorRecord) : SyncState :=
  if !st.clientInit then { st with log := st.log ++ [.upsertError] }
  else
    { st with
      collections := ensureCollection settings st.clientInit st.collections
      store := upsertPoint st.store { id := r.id, vector := r.vector, payload := r.metadata } }

/-- Whether a stored point's payload field `filePath` equals `path`
(the Qdrant `filter: {must: [{key: 'filePath', match: {value: path}}]}`). -/
def payloadFilePathIs (p : QdrantPoint) (path : String) : Bool :=
  objGet p.payload "filePath" == some (JsonVal.str path)

/-- Source `deleteFromQdrant(filePath)` body: a filtered search (dummy
vector, `limit: 1000`) collects the ids of points whose payload `filePath`
matches, and those ids are deleted when there are any. A filtered search
returns all matching points whenever at most `limit` match, which is the only
property used; the similarity ordering of the dummy-vector scores is
abstracted as the store order. -/
def deleteIdsOf (store : List QdrantPoint) (filePath : String) : List String :=
  ((store.filter (fun p => payloadFilePathIs p filePath)).take 1000).map (fun p => p.id)

/-- Deletion by the collected id list (`pointIds` in the source); when the
filtered search returned nothing, no delete call is issued. -/
def deleteFromQdrantStore (store : List QdrantPoint) (filePath : String) :
    List QdrantPoint :=
  if (deleteIdsOf store filePath).isEmpty then store
  else store.filter (fun p => !((deleteIdsOf store filePath).contains p.id))

/-- Source `removeFromIndex(filePath)`: delegates to `deleteFromQdrant` and
catches everything, so a missing client (the thrown initialization error)
just logs; `deleteFromQdrant`'s own `catch` likewise swallows backend
errors. -/
def removeFromIndex (settings : VectorSyncSettings) (st : SyncState)
    (filePath : String) : SyncState :=
  if !st.clientInit then { st with log := st.log ++ [.qdrantDeleteError] }
  else { st with store := deleteFromQdrantStore st.store filePath }

/-! ## Sync orchestrator -/

/-- The deterministic composite record id `<path>_chunk_<index>` built in
`indexFile`. -/
def recordId (path : String) (index : Nat) : String :=
  path ++ "_chunk_" ++ toString index

/-- The `VectorRecord` built for one chunk in `indexFile`'s loop: the payload
fields `filePath, fileName, chunkIndex, lastModified` followed by the spread
of the chunk's metadata (which therefore wins on a key collision). -/
def chunkRecord (file : TFile) (c : ChunkData) (v : List Int) : VectorRecord :=
  { id := recordId file.path c.index
    vector := v
    metadata :=
      [("filePath", JsonVal.str file.path), ("fileName", JsonVal.str file.basename),
       ("chunkIndex", JsonVal.num c.index), ("lastModified", JsonVal.num file.mtime)]
        ++ c.metadata }

/-- `syncQueue.add(path)` on the modelled `Set<string>`. -/
def addToQueue (q : List String) (p : String) : List String :=
  if q.contains p then q else q ++ [p]

/-- `syncQueue.delete(path)` on the modelled `Set<string>`. -/
def removeFromQueue (q : List String) (p : String) : List String :=
  q.filter (fun x => !(x == p))

/-- The per-chunk loop of `indexFile`: generate an embedding for each chunk
(appending any logged failure), and upsert a record only when a vector came
back — a chunk whose embedding failed is skipped. -/
def processChunks (settings : VectorSyncSettings) (api : String → Option (List Int))
    (file : TFile) : List ChunkData → SyncState → SyncState
  | [], st => st
  | c :: cs, st =>
    let e := generateEmbedding settings api c.text
    let st1 := { st with log := st.log ++ e.2 }
    let st2 :=
      match e.1 with
      | some v => upsertToVectorDb settings st1 (chunkRecord file c v)
      | none => st1
    processChunks settings api file cs st2

/-- Source `indexFile(file)`. Inside the `try`: add the path to the sync
queue and publish `syncing`; read the file — `readRes` is the outcome of
`vault.read`, the only awaited step in the `try` that can throw, since
embedding and upsert failures are swallowed downstream — chunk the content,
run the per-chunk loop, then remove the path from the queue and publish
`ready` when the queue emptied, else `syncing` with the new size. The `catch`
removes the path from the queue and publishes `error`. -/
def indexFile (settings : VectorSyncSettings) (api : String → Option (List Int))
    (readRes : Except String String) (file : TFile) (st : SyncState) : SyncState :=
  let q1 := addToQueue st.queue file.path
  let st1 := { st with queue := q1, status := .syncing 0 q1.length }
  match readRes with
  | .error _ =>
    { st1 with
      queue := removeFromQueue st1.queue file.path
      status := .error
      log := st1.log ++ [.indexError] }
  | .ok content =>
    let chunks := chunkContent settings content file
    let st2 := processChunks settings api file chunks st1
    let q2 := removeFromQueue st2.queue file.path
    if q2.length == 0 then { st2 with queue := q2, status := .ready }
    else { st2 with queue := q2, status := .syncing 0 q2.length }

/-- The vault `modify` (and `create`) event handler: gate on
`matchesSyncRules` — whose exceptions propagate — then `indexFile`. -/
def handleModifyEvent (settings : VectorSyncSettings) (api : String → Option (List Int))
    (readRes : Except String String) (file : TFile) (st : SyncState) :
    Except String SyncState := do
  let m ← matchesSyncRules settings file
  if m then .ok (indexFile settings api readRes file st) else .ok st

/-- The vault `delete` event handler: gate on `matchesSyncRules` of the
deleted file, then `removeFromIndex(file.path)`. -/
def handleDeleteEvent (settings : VectorSyncSettings) (file : TFile) (st : SyncState) :
    Except String SyncState := do
  let m ← matchesSyncRules settings file
  if m then .ok (removeFromIndex settings st file.path) else .ok st

/-- The vault `rename` event handler: the gate tests `matchesSyncRules` on
the file at its NEW path; only when that matches does it run
`removeFromIndex(oldPath)` followed by `indexFile(file)`. -/
def handleRenameEvent (settings : VectorSyncSettings) (api : String → Option (List Int))
    (readRes : Except String String) (file : TFile) (oldPath : String) (st : SyncState) :
    Except String SyncState := do
  let m ← matchesSyncRules settings file
  if m then
    .ok (indexFile settings api readRes file (removeFromIndex settings st oldPath))
  else .ok st

/-- Source `searchQdrant(vector, limit)`: throws without a client; otherwise
the nearest-neighbour answer of the backend, modelled by the oracle
`qdrantAnswer`. -/
def searchQdrant (client : Bool) (qdrantAnswer : List Int → Nat → List QdrantPoint)
    (v : List Int) (limit : Nat) : Except String (List QdrantPoint) :=
  if !client then .error "Qdrant client not initialized"
  else .ok (qdrantAnswer v limit)

/-- Source `searchSimilar(query, limit)`. Inside the `try`: a failed query
embedding raises `Error('Failed to generate embedding for query')`, otherwise
it delegates to `searchQdrant`; the surrounding `catch` turns ANY of those
errors into a logged, silently returned `[]`. -/
def searchSimilar (settings : VectorSyncSettings) (api : String → Option (List Int))
    (client : Bool) (qdrantAnswer : List Int → Nat → List QdrantPoint)
    (query : String) (limit : Nat) : Except String (List QdrantPoint) :=
  let inner : Except String (List QdrantPoint) :=
    match (generateEmbedding settings api query).1 with
    | none => .error "Failed to generate embedding for query"
    | some v => searchQdrant client qdrantAnswer v limit
  match inner with
  | .error _ => .ok []
  | .ok r => .ok r

/-! ## Derived notions used by the claims -/

/-- Lookup of a stored point by id: the first point with the id (Qdrant ids
are unique, so this is the point with that id). -/
def lookupStore : List QdrantPoint → String → Option QdrantPoint
  | [], _ => none
  | p :: ps, id => if p.id == id then some p else lookupStore ps id

/-- The record ids of the chunks of the current content. -/
def chunkIds (settings : VectorSyncSettings) (content : String) (file : TFile) :
    List String :=
  (chunkContent settings content file).map (fun c => recordId file.path c.index)

/-- The Qdrant point a chunk turns into, when its embedding succeeds. -/
def pointOfChunk (settings : VectorSyncSettings) (api : String → Option (List Int))
    (file : TFile) (c : ChunkData) : Option QdrantPoint :=
  (generateEmbedding settings api c.text).1.map (fun v =>
    let r := chunkRecord file c v
    ({ id := r.id, vector := r.vector, payload := r.metadata } : QdrantPoint))

/-- The points `indexFile` upserts for a content: one per chunk whose
embedding succeeds. -/
def successfulPoints (settings : VectorSyncSettings) (api : String → Option (List Int))
    (content : String) (file : TFile) : List QdrantPoint :=
  (chunkContent settings content file).filterMap (pointOfChunk settings api file)


/-! ## Lemmas: the store as an id-keyed map -/

/-- First-of-two option choice, used to phrase last-writer-wins lookups. -/
def firstSome (a b : Option QdrantPoint) : Option QdrantPoint :=
  match a with
  | some x => some x
  | none => b

/-- The point the latest upsert of a given id wrote, if any. -/
def lastWriter (L : List QdrantPoint) (id : String) : Option QdrantPoint :=
  lookupStore L.reverse id

theorem firstSome_none (a : Option QdrantPoint) : firstSome a none = a := by
  cases a <;> rfl

theorem upsert_fun_eq (p : QdrantPoint) :
    (fun q : QdrantPoint => if q.id == p.id then p else q)
      = (fun q : QdrantPoint => if q.id = p.id then p else q) := by
  funext q
  by_cases h : q.id = p.id <;> simp [h]

theorem lookup_map_upsert_ne (as : List QdrantPoint) (p : QdrantPoint) (id : String)
    (hne : p.id ≠ id) :
    lookupStore (as.map (fun q => if q.id = p.id then p else q)) id = lookupStore as id := by
  induction as with
  | nil => rfl
  | cons a as ih =>
    by_cases ha : a.id = p.id
    · simp only [List.map_cons, ha, if_true, lookupStore]
      have h1 : (p.id == id) = false := by simp [hne]
      have h2 : (a.id == id) = false := by simp [ha, hne]
      simp only [h1, h2, Bool.false_eq_true, if_false]
      exact ih
    · simp only [List.map_cons, ha, if_false, lookupStore]
      by_cases hid : a.id = id
      · simp [hid]
      · have h3 : (a.id == id) = false := by simp [hid]
        simp only [h3, Bool.false_eq_true, if_false]
        exact ih

theorem lookup_map_upsert_eq (as : List QdrantPoint) (p : QdrantPoint)
    (hmem : as.any (fun q => q.id == p.id) = true) :
    lookupStore (as.map (fun q => if q.id = p.id then p else q)) p.id = some p := by
  induction as with
  | nil => simp at hmem
  | cons a as ih =>
    by_cases ha : a.id = p.id
    · simp [List.map_cons, lookupStore, ha]
    · have h2 : (a.id == p.id) = false := by simp [ha]
      simp only [List.any_cons, h2, Bool.false_or] at hmem
      simp only [List.map_cons, ha, if_false, lookupStore, h2, Bool.false_eq_true]
      exact ih hmem

theorem lookup_append (s t : List QdrantPoint) (id : String) :
    lookupStore (s ++ t) id = firstSome (lookupStore s id) (lookupStore t id) := by
  induction s with
  | nil => simp [lookupStore, firstSome]
  | cons a s ih =>
    by_cases ha : a.id = id
    · simp [lookupStore, ha, firstSome]
    · have h1 : (a.id == id) = false := by simp [ha]
      simp [lookupStore, h1, ih]

theorem lookup_eq_none_of_any_false (s : List QdrantPoint) (id : String)
    (h : s.any (fun q => q.id == id) = false) : lookupStore s id = none := by
  induction s with
  | nil => rfl
  | cons a s ih =>
    simp only [List.any_cons, Bool.or_eq_false_iff] at h
    simp [lookupStore, h.1, ih h.2]

theorem lookupStore_upsertPoint (s : List QdrantPoint) (p : QdrantPoint) (id : String) :
    lookupStore (upsertPoint s p) id = if p.id = id then some p else lookupStore s id := by
  unfold upsertPoint
  rw [upsert_fun_eq]
  by_cases hany : s.any (fun q => q.id == p.id) = true
  · simp only [hany, if_true]
    by_cases hid : p.id = id
    · subst hid
      simp [lookup_map_upsert_eq s p hany]
    · simp [hid, lookup_map_upsert_ne s p id hid]
  · have hany2 : s.any (fun q => q.id == p.id) = false := by
      cases h : s.any (fun q => q.id == p.id)
      · rfl
      · exact absurd h hany
    simp only [hany2, Bool.false_eq_true, if_false]
    rw [lookup_append]
    by_cases hid : p.id = id
    · subst hid
      rw [lookup_eq_none_of_any_false s p.id hany2]
      simp [lookupStore, firstSome]
    · have h1 : (p.id == id) = false := by simp [hid]
      simp only [hid, if_false]
      simp [lookupStore, h1, firstSome_none]

theorem lookupStore_foldl (L : List QdrantPoint) (s : List QdrantPoint) (id : String) :
    lookupStore (L.foldl upsertPoint s) id = firstSome (lastWriter L id) (lookupStore s id) := by
  induction L using List.reverseRecOn generalizing s with
  | nil => simp [lastWriter, lookupStore, firstSome]
  | append_singleton L q ih =>
    rw [List.foldl_append]
    simp only [List.foldl_cons, List.foldl_nil]
    rw [lookupStore_upsertPoint]
    unfold lastWriter
    rw [List.reverse_append]
    simp only [List.reverse_cons, List.reverse_nil, List.nil_append, List.cons_append]
    by_cases hq : q.id = id
    · simp [lookupStore, hq, firstSome]
    · have h1 : (q.id == id) = false := by simp [hq]
      simp only [hq, if_false, lookupStore, h1, Bool.false_eq_true]
      exact ih s

theorem mem_upsertPoint_of_ne (s : List QdrantPoint) (p q : QdrantPoint)
    (hp : p ∈ s) (hne : p.id ≠ q.id) : p ∈ upsertPoint s q := by
  unfold upsertPoint
  by_cases hany : s.any (fun r => r.id == q.id) = true
  · simp only [hany, if_true]
    have hrep : p = (fun r => if r.id == q.id then q else r) p := by
      have h1 : (p.id == q.id) = false := by simp [hne]
      simp [h1]
    rw [hrep]
    exact List.mem_map_of_mem _ hp
  · have hany2 : s.any (fun r => r.id == q.id) = false := by
      cases h : s.any (fun r => r.id == q.id)
      · rfl
      · exact absurd h hany
    simp only [hany2, Bool.false_eq_true, if_false]
    exact List.mem_append_left _ hp

theorem mem_of_mem_upsertPoint (s : List QdrantPoint) (p q : QdrantPoint)
    (hp : p ∈ upsertPoint s q) : p = q ∨ p ∈ s := by
  unfold upsertPoint at hp
  by_cases hany : s.any (fun r => r.id == q.id) = true
  · simp only [hany, if_true] at hp
    rcases List.mem_map.mp hp with ⟨r, hr, hrep⟩
    by_cases hid : r.id = q.id
    · left
      have h1 : (r.id == q.id) = true := by simp [hid]
      rw [h1] at hrep
      simp at hrep
      exact hrep.symm
    · right
      have h1 : (r.id == q.id) = false := by simp [hid]
      rw [h1] at hrep
      simp at hrep
      exact hrep ▸ hr
  · have hany2 : s.any (fun r => r.id == q.id) = false := by
      cases h : s.any (fun r => r.id == q.id)
      · rfl
      · exact absurd h hany
    simp only [hany2, Bool.false_eq_true, if_false] at hp
    rcases List.mem_append.mp hp with h | h
    · exact Or.inr h
    · simp at h
      exact Or.inl h

theorem mem_foldl_upsert_of_ne (L : List QdrantPoint) (s : List QdrantPoint)
    (p : QdrantPoint) (hp : p ∈ s) (hne : ∀ q ∈ L, p.id ≠ q.id) :
    p ∈ L.foldl upsertPoint s := by
  induction L generalizing s with
  | nil => exact hp
  | cons q L ih =>
    simp only [List.foldl_cons]
    exact ih (upsertPoint s q)
      (mem_upsertPoint_of_ne s p q hp (hne q (List.mem_cons_self q L)))
      (fun r hr => hne r (List.mem_cons_of_mem q hr))

theorem mem_of_mem_foldl_upsert (L : List QdrantPoint) (s : List QdrantPoint)
    (p : QdrantPoint) (hp : p ∈ L.foldl upsertPoint s) : p ∈ s ∨ p ∈ L := by
  induction L generalizing s with
  | nil => exact Or.inl hp
  | cons q L ih =>
    simp only [List.foldl_cons] at hp
    rcases ih (upsertPoint s q) hp with h | h
    · rcases mem_of_mem_upsertPoint s p q h with h2 | h2
      · exact Or.inr (h2 ▸ List.mem_cons_self q L)
      · exact Or.inl h2
    · exact Or.inr (List.mem_cons_of_mem q h)

theorem length_upsertPoint_of_present (s : List QdrantPoint) (p : QdrantPoint)
    (h : s.any (fun q => q.id == p.id) = true) :
    (upsertPoint s p).length = s.length := by
  unfold upsertPoint
  simp [h]

theorem any_of_lookupStore_isSome (s : List QdrantPoint) (id : String)
    (h : (lookupStore s id).isSome = true) : s.any (fun q => q.id == id) = true := by
  induction s with
  | nil => simp [lookupStore] at h
  | cons a s ih =>
    by_cases ha : a.id = id
    · simp [List.any_cons, ha]
    · have h1 : (a.id == id) = false := by simp [ha]
      simp only [lookupStore, h1, Bool.false_eq_true, if_false] at h
      simp [List.any_cons, h1, ih h]

theorem lookupStore_isSome_upsertPoint (s : List QdrantPoint) (p : QdrantPoint)
    (id : String) (h : (lookupStore s id).isSome = true) :
    (lookupStore (upsertPoint s p) id).isSome = true := by
  rw [lookupStore_upsertPoint]
  by_cases hid : p.id = id
  · simp [hid]
  · simp only [hid, if_false]
    exact h

theorem length_foldl_upsert_of_present (L : List QdrantPoint) (s : List QdrantPoint)
    (h : ∀ q ∈ L, (lookupStore s q.id).isSome = true) :
    (L.foldl upsertPoint s).length = s.length := by
  induction L generalizing s with
  | nil => rfl
  | cons q L ih =>
    simp only [List.foldl_cons]
    rw [ih (upsertPoint s q)
      (fun r hr => lookupStore_isSome_upsertPoint s q r.id (h r (List.mem_cons_of_mem q hr)))]
    exact length_upsertPoint_of_present s q
      (any_of_lookupStore_isSome s q.id (h q (List.mem_cons_self q L)))

theorem lookup_isSome_of_mem (s : List QdrantPoint) (q : QdrantPoint) (hq : q ∈ s) :
    (lookupStore s q.id).isSome = true := by
  induction s with
  | nil => simp at hq
  | cons a s ih =>
    by_cases ha : a.id = q.id
    · simp [lookupStore, ha]
    · have h1 : (a.id == q.id) = false := by simp [ha]
      rcases List.mem_cons.mp hq with h | h
      · rw [h] at ha
        exact absurd rfl ha
      · simp only [lookupStore, h1, Bool.false_eq_true, if_false]
        exact ih h

theorem lookupStore_isSome_foldl_of_mem (L : List QdrantPoint) (s : List QdrantPoint)
    (q : QdrantPoint) (hq : q ∈ L) :
    (lookupStore (L.foldl upsertPoint s) q.id).isSome = true := by
  rw [lookupStore_foldl]
  have hlw : (lastWriter L q.id).isSome = true :=
    lookup_isSome_of_mem L.reverse q (List.mem_reverse.mpr hq)
  cases hl : lastWriter L q.id with
  | none => rw [hl] at hlw; simp at hlw
  | some r => simp [firstSome, hl]

theorem lastWriter_mem (L : List QdrantPoint) (id : String) (q : QdrantPoint)
    (h : lastWriter L id = some q) : q ∈ L ∧ q.id = id := by
  unfold lastWriter at h
  have aux : ∀ (l : List QdrantPoint), lookupStore l id = some q → q ∈ l ∧ q.id = id := by
    intro l
    induction l with
    | nil => intro h2; simp [lookupStore] at h2
    | cons a l ih =>
      intro h2
      by_cases ha : a.id = id
      · have h1 : (a.id == id) = true := by simp [ha]
        simp only [lookupStore, h1, if_true] at h2
        have h3 : a = q := by injection h2
        constructor
        · rw [← h3]
          exact List.mem_cons_self a l
        · rw [← h3]
          exact ha
      · have h1 : (a.id == id) = false := by simp [ha]
        simp only [lookupStore, h1, Bool.false_eq_true, if_false] at h2
        rcases ih h2 with ⟨hm, hid⟩
        exact ⟨List.mem_cons_of_mem a hm, hid⟩
  rcases aux L.reverse h with ⟨hm, hid⟩
  exact ⟨List.mem_reverse.mp hm, hid⟩

/-! ## Lemmas: state components of the indexing pipeline -/

theorem upsertToVectorDb_clientInit (settings : VectorSyncSettings) (st : SyncState)
    (r : VectorRecord) : (upsertToVectorDb settings st r).clientInit = st.clientInit := by
  unfold upsertToVectorDb
  by_cases h : st.clientInit <;> simp [h]

theorem upsertToVectorDb_queue (settings : VectorSyncSettings) (st : SyncState)
    (r : VectorRecord) : (upsertToVectorDb settings st r).queue = st.queue := by
  unfold upsertToVectorDb
  by_cases h : st.clientInit <;> simp [h]

theorem upsertToVectorDb_status (settings : VectorSyncSettings) (st : SyncState)
    (r : VectorRecord) : (upsertToVectorDb settings st r).status = st.status := by
  unfold upsertToVectorDb
  by_cases h : st.clientInit <;> simp [h]

theorem upsertToVectorDb_store_of_client (settings : VectorSyncSettings) (st : SyncState)
    (r : VectorRecord) (h : st.clientInit = true) :
    (upsertToVectorDb settings st r).store
      = upsertPoint st.store { id := r.id, vector := r.vector, payload := r.metadata } := by
  unfold upsertToVectorDb
  simp [h]

theorem upsertToVectorDb_store_of_noclient (settings : VectorSyncSettings) (st : SyncState)
    (r : VectorRecord) (h : st.clientInit = false) :
    (upsertToVectorDb settings st r).store = st.store := by
  unfold upsertToVectorDb
  simp [h]

theorem processChunks_clientInit (settings : VectorSyncSettings)
    (api : String → Option (List Int)) (file : TFile) (cs : List ChunkData)
    (st : SyncState) : (processChunks settings api file cs st).clientInit = st.clientInit := by
  induction cs generalizing st with
  | nil => rfl
  | cons c cs ih =>
    simp only [processChunks]
    cases hgen : (generateEmbedding settings api c.text).1 with
    | none => rw [ih]
    | some v => rw [ih, upsertToVectorDb_clientInit]

theorem processChunks_queue (settings : VectorSyncSettings)
    (api : String → Option (List Int)) (file : TFile) (cs : List ChunkData)
    (st : SyncState) : (processChunks settings api file cs st).queue = st.queue := by
  induction cs generalizing st with
  | nil => rfl
  | cons c cs ih =>
    simp only [processChunks]
    cases hgen : (generateEmbedding settings api c.text).1 with
    | none => rw [ih]
    | some v => rw [ih, upsertToVectorDb_queue]

theorem processChunks_status (settings : VectorSyncSettings)
    (api : String → Option (List Int)) (file : TFile) (cs : List ChunkData)
    (st : SyncState) : (processChunks settings api file cs st).status = st.status := by
  induction cs generalizing st with
  | nil => rfl
  | cons c cs ih =>
    simp only [processChunks]
    cases hgen : (generateEmbedding settings api c.text).1 with
    | none => rw [ih]
    | some v => rw [ih, upsertToVectorDb_status]

theorem processChunks_store_of_client (settings : VectorSyncSettings)
    (api : String → Option (List Int)) (file : TFile) (cs : List ChunkData)
    (st : SyncState) (h : st.clientInit = true) :
    (processChunks settings api file cs st).store
      = (cs.filterMap (pointOfChunk settings api file)).foldl upsertPoint st.store := by
  induction cs generalizing st with
  | nil => rfl
  | cons c cs ih =>
    simp only [processChunks, List.filterMap_cons]
    cases hgen : (generateEmbedding settings api c.text).1 with
    | none =>
      simp only [pointOfChunk, hgen, Option.map_none']
      exact ih _ h
    | some v =>
      simp only [pointOfChunk, hgen, Option.map_some']
      rw [ih _ (by rw [upsertToVectorDb_clientInit]; exact h)]
      rw [upsertToVectorDb_store_of_client settings
        { st with log := st.log ++ (generateEmbedding settings api c.text).2 }
        (chunkRecord file c v) h]
      rfl

theorem processChunks_store_of_noclient (settings : VectorSyncSettings)
    (api : String → Option (List Int)) (file : TFile) (cs : List ChunkData)
    (st : SyncState) (h : st.clientInit = false) :
    (processChunks settings api file cs st).store = st.store := by
  induction cs generalizing st with
  | nil => rfl
  | cons c cs ih =>
    simp only [processChunks]
    cases hgen : (generateEmbedding settings api c.text).1 with
    | none => exact ih _ h
    | some v =>
      rw [ih _ (by rw [upsertToVectorDb_clientInit]; exact h)]
      exact upsertToVectorDb_store_of_noclient _ _ _ h

theorem indexFile_store_error (settings : VectorSyncSettings)
    (api : String → Option (List Int)) (e : String) (file : TFile) (st : SyncState) :
    (indexFile settings api (Except.error e) file st).store = st.store := rfl

theorem indexFile_store_ok (settings : VectorSyncSettings)
    (api : String → Option (List Int)) (content : String) (file : TFile) (st : SyncState) :
    (indexFile settings api (Except.ok content) file st).store
      = if st.clientInit = true then
          (successfulPoints settings api content file).foldl upsertPoint st.store
        else st.store := by
  have hbody : (indexFile settings api (Except.ok content) file st).store
      = (processChunks settings api file (chunkContent settings content file)
          { st with
            queue := addToQueue st.queue file.path
            status := .syncing 0 (addToQueue st.queue file.path).length }).store := by
    simp only [indexFile]
    split <;> rfl
  rw [hbody]
  by_cases h : st.clientInit = true
  · rw [processChunks_store_of_client settings api file (chunkContent settings content file)
      { st with
        queue := addToQueue st.queue file.path
        status := .syncing 0 (addToQueue st.queue file.path).length } h]
    simp [successfulPoints, h]
  · have h2 : st.clientInit = false := by
      cases hc : st.clientInit
      · rfl
      · exact absurd hc h
    rw [processChunks_store_of_noclient settings api file (chunkContent settings content file)
      { st with
        queue := addToQueue st.queue file.path
        status := .syncing 0 (addToQueue st.queue file.path).length } h2]
    simp [h]

theorem indexFile_clientInit (settings : VectorSyncSettings)
    (api : String → Option (List Int)) (readRes : Except String String) (file : TFile)
    (st : SyncState) :
    (indexFile settings api readRes file st).clientInit = st.clientInit := by
  cases readRes with
  | error e => rfl
  | ok content =>
    simp only [indexFile]
    split <;> simp [processChunks_clientInit]

theorem removeFromQueue_contains_false (q : List String) (p : String) :
    (removeFromQueue q p).contains p = false := by
  unfold removeFromQueue
  induction q with
  | nil => rfl
  | cons x q ih =>
    by_cases hx : x = p
    · simpa [List.filter_cons, hx] using ih
    · simp only [List.filter_cons]
      have h1 : (x == p) = false := by simp [hx]
      rw [h1]
      simp only [Bool.not_false, if_true, List.contains_cons]
      have h2 : (p == x) = false := by simp [Ne.symm hx]
      rw [h2, Bool.false_or]
      exact ih

/-! ## Claim C4 -/

/-- C4: for a tracked, unchanged file (same path, same content, the embedding
provider modelled as a deterministic function of the text), indexing twice
produces an identical set of vector-record ids and vectors: every id resolves
to the same record after the second run as after the first (record ids are
the deterministic composite `recordId`, and `upsertToQdrant` is
insert-or-replace by id), and the second run adds no records at all — no
duplicates accumulate. -/
theorem c4_reindex_idempotent (settings : VectorSyncSettings)
    (api : String → Option (List Int)) (content : String) (file : TFile) (st : SyncState) :
    (∀ id, lookupStore (indexFile settings api (Except.ok content) file
        (indexFile settings api (Except.ok content) file st)).store id
      = lookupStore (indexFile settings api (Except.ok content) file st).store id)
    ∧ (indexFile settings api (Except.ok content) file
        (indexFile settings api (Except.ok content) file st)).store.length
      = (indexFile settings api (Except.ok content) file st).store.length := by
  have hclient : (indexFile settings api (Except.ok content) file st).clientInit
      = st.clientInit := indexFile_clientInit settings api (Except.ok content) file st
  have h1 := indexFile_store_ok settings api content file st
  have h2 := indexFile_store_ok settings api content file
    (indexFile settings api (Except.ok content) file st)
  by_cases h : st.clientInit = true
  · rw [if_pos h] at h1
    rw [if_pos (by rw [hclient]; exact h), h1] at h2
    constructor
    · intro id
      rw [h2, h1, lookupStore_foldl, lookupStore_foldl]
      cases hl : lastWriter (successfulPoints settings api content file) id with
      | some q => simp [firstSome, hl]
      | none => simp [firstSome, hl]
    · rw [h2, h1]
      exact length_foldl_upsert_of_present _ _
        (fun q hq => lookupStore_isSome_foldl_of_mem _ _ q hq)
  · rw [if_neg h] at h1
    rw [if_neg (by rw [hclient]; exact h), h1] at h2
    rw [h2, h1]
    exact ⟨fun id => rfl, rfl⟩

/-! ## Claim C10 -/

/-- C10: whatever the outcome of `indexFile` — normal completion, or the
exception path entered after the path was added to the in-flight queue (a
failing `vault.read`, the only step inside the `try` whose failure is not
swallowed downstream) — the file's path is absent from the sync queue when
`indexFile` returns, and the published status is `ready` exactly when the
run succeeded and the queue has become empty. -/
theorem c10_queue_cleared_and_ready_iff (settings : VectorSyncSettings)
    (api : String → Option (List Int)) (readRes : Except String String) (file : TFile)
    (st : SyncState) :
    ((indexFile settings api readRes file st).queue.contains file.path = false)
    ∧ ((indexFile settings api readRes file st).status = SyncStatus.ready
        ↔ (∃ c, readRes = Except.ok c)
          ∧ (indexFile settings api readRes file st).queue = []) := by
  cases readRes with
  | error e =>
    constructor
    · exact removeFromQueue_contains_false (addToQueue st.queue file.path) file.path
    · constructor
      · intro hst
        have h2 : SyncStatus.error = SyncStatus.ready := hst
        exact absurd h2 (by decide)
      · rintro ⟨⟨c, hc⟩, -⟩
        cases hc
  | ok content =>
    simp only [indexFile]
    split
    · constructor
      · exact removeFromQueue_contains_false _ file.path
      · rename_i hzero
        constructor
        · intro _
          refine ⟨⟨content, rfl⟩, ?_⟩
          have hz : (removeFromQueue (processChunks settings api file
              (chunkContent settings content file)
              { st with
                queue := addToQueue st.queue file.path
                status := .syncing 0 (addToQueue st.queue file.path).length }).queue
              file.path).length = 0 := by
            have := hzero
            simpa using this
          exact List.length_eq_zero.mp hz
        · intro _
          rfl
    · constructor
      · exact removeFromQueue_contains_false _ file.path
      · rename_i hnz
        constructor
        · intro hst
          have h2 : SyncStatus.syncing 0 (removeFromQueue (processChunks settings api file
              (chunkContent settings content file)
              { st with
                queue := addToQueue st.queue file.path
                status := .syncing 0 (addToQueue st.queue file.path).length }).queue
              file.path).length = SyncStatus.ready := hst
          exact absurd h2 (by simp)
        · rintro ⟨-, hq⟩
          have hq2 : (removeFromQueue (processChunks settings api file
              (chunkContent settings content file)
              { st with
                queue := addToQueue st.queue file.path
                status := .syncing 0 (addToQueue st.queue file.path).length }).queue
              file.path) = [] := hq
          have hfalse : False := by
            apply hnz
            simp [hq2]
          exact hfalse.elim

/-! ## Lemmas: the chunking loop as an indexed family -/

theorem chunkGo_eq_map_range (chunkSize step : Nat) (meta : JsObject) (ext : String)
    (t : List Char) (hs : 0 < step) :
    ∀ fuel i, t.length - i < fuel →
      chunkGo chunkSize step meta ext t fuel i
        = (List.range ((t.length - i + step - 1) / step)).map (fun j =>
            ({ text := String.mk ((t.drop (i + j * step)).take chunkSize)
               index := (i + j * step) / step
               metadata := mkChunkMeta meta ext ((t.length + step - 1) / step) } : ChunkData)) := by
  intro fuel
  induction fuel with
  | zero => intro i h; omega
  | succ fuel ih =>
    intro i h
    by_cases hi : i < t.length
    · rw [chunkGo, if_pos hi, ih (i + step) (by omega)]
      have hm1 : 1 ≤ t.length - i := by omega
      have hc : (t.length - i + step - 1) / step
          = (t.length - (i + step) + step - 1) / step + 1 := by
        have e1 : t.length - i + step - 1 = (t.length - i - 1) + step := by omega
        rw [e1, Nat.add_div_right _ hs]
        by_cases hlast : t.length ≤ i + step
        · have e2 : t.length - (i + step) = 0 := by omega
          rw [e2]
          have e3 : (0 + step - 1) / step = 0 := Nat.div_eq_of_lt (by omega)
          have e4 : (t.length - i - 1) / step = 0 := Nat.div_eq_of_lt (by omega)
          rw [e3, e4]
        · have e2 : t.length - (i + step) + step - 1 = t.length - i - 1 := by omega
          rw [e2]
      rw [hc, List.range_succ_eq_map, List.map_cons, List.map_map]
      simp only [List.cons.injEq]
      constructor
      · simp
      · congr 1
        funext j
        have harg : i + step + j * step = i + (j + 1) * step := by ring
        simp only [Function.comp, Nat.succ_eq_add_one, harg]
    · rw [chunkGo, if_neg hi]
      have e1 : t.length - i = 0 := by omega
      rw [e1]
      have e3 : (0 + step - 1) / step = 0 := Nat.div_eq_of_lt (by omega)
      rw [e3]
      rfl

theorem chunkBody_eq_map_range (chunkSize overlapSize : Nat) (meta : JsObject)
    (ext : String) (t : List Char) (hov : overlapSize < chunkSize) :
    chunkBody chunkSize overlapSize meta ext t
      = (List.range ((t.length + (chunkSize - overlapSize) - 1) / (chunkSize - overlapSize))).map
          (fun j =>
            ({ text := String.mk ((t.drop (j * (chunkSize - overlapSize))).take chunkSize)
               index := (j * (chunkSize - overlapSize)) / (chunkSize - overlapSize)
               metadata := mkChunkMeta meta ext
                 ((t.length + (chunkSize - overlapSize) - 1) / (chunkSize - overlapSize)) } :
              ChunkData)) := by
  have hs : 0 < chunkSize - overlapSize := by omega
  have hg : (chunkSize - overlapSize == 0) = false := by
    simp only [beq_eq_false_iff_ne]
    omega
  unfold chunkBody
  rw [hg]
  simp only [Bool.false_eq_true, if_false]
  rw [chunkGo_eq_map_range chunkSize (chunkSize - overlapSize) meta ext t hs
    (t.length + 1) 0 (by omega)]
  simp

theorem chunkGo_metadata (chunkSize step : Nat) (meta : JsObject) (ext : String)
    (t : List Char) :
    ∀ fuel i c, c ∈ chunkGo chunkSize step meta ext t fuel i →
      c.metadata = mkChunkMeta meta ext ((t.length + step - 1) / step) := by
  intro fuel
  induction fuel with
  | zero => intro i c hc; simp [chunkGo] at hc
  | succ fuel ih =>
    intro i c hc
    rw [chunkGo] at hc
    by_cases hi : i < t.length
    · rw [if_pos hi] at hc
      rcases List.mem_cons.mp hc with h | h
      · rw [h]
      · exact ih (i + step) c h
    · rw [if_neg hi] at hc
      simp at hc

/-! ## Claim C6 -/

/-- C6: for overlap < chunk size, the chunking loop emits exactly
`ceil(L / (C - O))` chunks; the k-th chunk is the window of `min(C, L - k*(C-O))`
characters starting at offset `k*(C-O)`, and its stored index is its 0-based
emission position `k`; the start offsets (multiples of `C - O`) cover the body
with no gap — consecutive windows abut or overlap (`C - O ≤ C`), the last
window reaches the end of the body, and every window starts inside it. An
empty body yields zero chunks (the loop simply does not run; no error). -/
theorem c6_chunker_coverage (chunkSize overlapSize : Nat) (meta : JsObject) (ext : String)
    (t : List Char) (hov : overlapSize < chunkSize) :
    (t = [] → chunkBody chunkSize overlapSize meta ext t = [])
    ∧ (chunkBody chunkSize overlapSize meta ext t).length
        = (t.length + (chunkSize - overlapSize) - 1) / (chunkSize - overlapSize)
    ∧ (∀ k, (hk : k < (chunkBody chunkSize overlapSize meta ext t).length) →
        ((chunkBody chunkSize overlapSize meta ext t).get ⟨k, hk⟩).index = k
        ∧ ((chunkBody chunkSize overlapSize meta ext t).get ⟨k, hk⟩).text
            = String.mk ((t.drop (k * (chunkSize - overlapSize))).take chunkSize)
        ∧ ((chunkBody chunkSize overlapSize meta ext t).get ⟨k, hk⟩).text.length
            = min chunkSize (t.length - k * (chunkSize - overlapSize)))
    ∧ chunkSize - overlapSize ≤ chunkSize
    ∧ (t ≠ [] →
        0 < (chunkBody chunkSize overlapSize meta ext t).length
        ∧ ((chunkBody chunkSize overlapSize meta ext t).length - 1)
            * (chunkSize - overlapSize) < t.length
        ∧ t.length ≤ ((chunkBody chunkSize overlapSize meta ext t).length - 1)
            * (chunkSize - overlapSize) + chunkSize) := by
  have hs : 0 < chunkSize - overlapSize := by omega
  have hbody := chunkBody_eq_map_range chunkSize overlapSize meta ext t hov
  have hlen : (chunkBody chunkSize overlapSize meta ext t).length
      = (t.length + (chunkSize - overlapSize) - 1) / (chunkSize - overlapSize) := by
    rw [hbody]
    simp
  refine ⟨?_, hlen, ?_, by omega, ?_⟩
  · intro ht
    subst ht
    have h0 : ((List.length ([] : List Char)) + (chunkSize - overlapSize) - 1)
        / (chunkSize - overlapSize) = 0 := by
      apply Nat.div_eq_of_lt
      simp
      omega
    rw [hbody, h0]
    rfl
  · intro k hk
    have hk2 : k < (t.length + (chunkSize - overlapSize) - 1) / (chunkSize - overlapSize) := by
      rw [← hlen]
      exact hk
    have hget : (chunkBody chunkSize overlapSize meta ext t).get ⟨k, hk⟩
        = ({ text := String.mk ((t.drop (k * (chunkSize - overlapSize))).take chunkSize)
             index := (k * (chunkSize - overlapSize)) / (chunkSize - overlapSize)
             metadata := mkChunkMeta meta ext
               ((t.length + (chunkSize - overlapSize) - 1) / (chunkSize - overlapSize)) } :
            ChunkData) := by
      have hcast := List.get_of_eq hbody ⟨k, hk⟩
      rw [hcast]
      simp [List.get_eq_getElem, List.getElem_map, List.getElem_range]
    rw [hget]
    refine ⟨?_, rfl, ?_⟩
    · exact Nat.mul_div_cancel k hs
    · show (String.mk ((t.drop (k * (chunkSize - overlapSize))).take chunkSize)).length = _
      have : (String.mk ((t.drop (k * (chunkSize - overlapSize))).take chunkSize)).length
          = ((t.drop (k * (chunkSize - overlapSize))).take chunkSize).length := rfl
      rw [this, List.length_take, List.length_drop]
  · intro hne
    have hL : 1 ≤ t.length := List.length_pos.mpr hne
    rw [hlen]
    have hn1 : 1 ≤ (t.length + (chunkSize - overlapSize) - 1) / (chunkSize - overlapSize) := by
      rw [Nat.le_div_iff_mul_le hs]
      omega
    refine ⟨by omega, ?_, ?_⟩
    · have hub := Nat.div_mul_le_self (t.length + (chunkSize - overlapSize) - 1)
        (chunkSize - overlapSize)
      rw [Nat.sub_mul, Nat.one_mul]
      omega
    · have hdm := Nat.div_add_mod (t.length + (chunkSize - overlapSize) - 1)
        (chunkSize - overlapSize)
      have hmod : (t.length + (chunkSize - overlapSize) - 1) % (chunkSize - overlapSize)
          < chunkSize - overlapSize := Nat.mod_lt _ hs
      rw [Nat.sub_mul, Nat.one_mul]
      rw [Nat.mul_comm] at hdm
      omega

/-- Witness for C6 at spec scenario B: chunk size 1000, overlap 200, a body
of 2500 characters; the hypothesis 200 < 1000 holds and the theorem's chunk
count evaluates to ceil(2500/800) = 4. -/
theorem c6_chunker_coverage_witness :
    200 < 1000
    ∧ (chunkBody 1000 200 [] "md" (List.replicate 2500 'a')).length = 4 := by
  constructor
  · decide
  · have h := (c6_chunker_coverage 1000 200 [] "md" (List.replicate 2500 'a') (by decide)).2.1
    rw [h]
    simp only [List.length_replicate]

/-! ## Concrete scenario used by several claims -/

/-- The markdown extension rule of the default configuration (without its
exclude patterns, which none of the scenarios need). -/
def markdownRule : SyncRule :=
  { id := "all-markdown", name := "All Markdown Files", enabled := true,
    ruleType := .extension, pattern := "md", exclude := [] }

/-- A small, fully concrete configuration: chunk size 4, overlap 1 (step 3),
OpenAI backend with a key configured. -/
def demoSettings : VectorSyncSettings :=
  { enabled := true, qdrantUrl := "http://localhost:6333", qdrantApiKey := none,
    collectionName := "obsidian-vault", dimension := 2, syncRules := [markdownRule],
    chunkSize := 4, overlapSize := 1, embeddingModel := .openai,
    embeddingApiKey := some "k" }

/-- An embedding oracle that always succeeds with the vector `[1]`. -/
def demoApi : String → Option (List Int) := fun _ => some [1]

/-- Fresh state: client initialized, empty collection list, empty store. -/
def demoState : SyncState :=
  { clientInit := true, collections := [], store := [], queue := [],
    status := .ready, log := [] }

/-- The file `n.md` used for the edit scenario. -/
def demoFile : TFile := { path := "n.md", basename := "n", extension := "md", mtime := 5 }

/-- State after indexing `n.md` with the 6-character content `"abcdef"`
(two chunks at step 3: indices 0 and 1). -/
def demoState1 : SyncState :=
  indexFile demoSettings demoApi (Except.ok "abcdef") demoFile demoState

/-- The record of chunk 1 of the original, longer content of `n.md`. -/
def demoStalePoint : QdrantPoint :=
  { id := "n.md_chunk_1", vector := [1],
    payload := [("filePath", JsonVal.str "n.md"), ("fileName", JsonVal.str "n"),
                ("chunkIndex", JsonVal.num 1), ("lastModified", JsonVal.num 5),
                ("fileExtension", JsonVal.str "md"), ("totalChunks", JsonVal.num 2)] }

/-! ## Claim C1 -/

theorem successfulPoints_id_mem_chunkIds (settings : VectorSyncSettings)
    (api : String → Option (List Int)) (content : String) (file : TFile)
    (q : QdrantPoint) (hq : q ∈ successfulPoints settings api content file) :
    q.id ∈ chunkIds settings content file := by
  unfold successfulPoints at hq
  rcases List.mem_filterMap.mp hq with ⟨c, hc, hpoint⟩
  unfold pointOfChunk at hpoint
  cases hgen : (generateEmbedding settings api c.text).1 with
  | none =>
    rw [hgen] at hpoint
    simp at hpoint
  | some v =>
    rw [hgen] at hpoint
    simp only [Option.map_some'] at hpoint
    have h3 := Option.some.inj hpoint
    unfold chunkIds
    apply List.mem_map.mpr
    refine ⟨c, hc, ?_⟩
    rw [← h3]
    rfl

/-- C1 counterexample: index `n.md` with the six-character content `"abcdef"`
(two chunks), then process an edit to the two-character content `"ab"`
(one chunk). After the edit is fully processed the store still holds TWO
records whose payload `filePath` is `n.md` — including the stale
`n.md_chunk_1` record with `chunkIndex` 1, at (not below) the current chunk
count 1 — contradicting the claim that the record set equals exactly the
current content's chunks. -/
theorem c1_counterexample :
    (chunkContent demoSettings "ab" demoFile).length = 1
    ∧ ((indexFile demoSettings demoApi (Except.ok "ab") demoFile demoState1).store.filter
        (fun p => payloadFilePathIs p "n.md")).map (fun p => p.id)
      = ["n.md_chunk_0", "n.md_chunk_1"]
    ∧ lookupStore (indexFile demoSettings demoApi (Except.ok "ab") demoFile demoState1).store
        "n.md_chunk_1" = some demoStalePoint := by
  refine ⟨by decide, by decide, by decide⟩

/-- C1 amended: processing an edit through `indexFile` only ever upserts —
records whose id is one of the current chunk ids are replaced by points built
from the current content, but nothing is deleted: every pre-existing record
whose id is not a current chunk id (in particular every record with
`chunkIndex` at or beyond the current chunk count left over from a longer
previous version) survives in the store. -/
theorem c1_edit_upserts_but_never_deletes (settings : VectorSyncSettings)
    (api : String → Option (List Int)) (content : String) (file : TFile)
    (st : SyncState) (hcl : st.clientInit = true) :
    (∀ p, p ∈ st.store → p.id ∉ chunkIds settings content file →
        p ∈ (indexFile settings api (Except.ok content) file st).store)
    ∧ (∀ id q, id ∈ (successfulPoints settings api content file).map (fun r => r.id) →
        lookupStore (indexFile settings api (Except.ok content) file st).store id = some q →
        q ∈ successfulPoints settings api content file) := by
  have hst := indexFile_store_ok settings api content file st
  rw [if_pos hcl] at hst
  constructor
  · intro p hp hnotin
    rw [hst]
    apply mem_foldl_upsert_of_ne _ _ _ hp
    intro q hq heq
    apply hnotin
    rw [heq]
    exact successfulPoints_id_mem_chunkIds settings api content file q hq
  · intro id q hid hlook
    rw [hst, lookupStore_foldl] at hlook
    cases hl : lastWriter (successfulPoints settings api content file) id with
    | some r =>
      rw [hl] at hlook
      simp only [firstSome] at hlook
      rcases lastWriter_mem _ _ _ hl with ⟨hmem, hident⟩
      have hqr : r = q := by injection hlook
      rw [← hqr]
      exact hmem
    | none =>
      exfalso
      rcases List.mem_map.mp hid with ⟨r, hr, hrid⟩
      have hsome := lookup_isSome_of_mem (successfulPoints settings api content file).reverse r
        (List.mem_reverse.mpr hr)
      unfold lastWriter at hl
      rw [hrid] at hsome
      rw [hl] at hsome
      simp at hsome

/-- Witness for C1's amended theorem: in the concrete edit scenario the
hypothesis (client initialized) holds, and the stale chunk-1 record of the
longer previous content indeed survives the re-index with `"ab"`. -/
theorem c1_edit_upserts_but_never_deletes_witness :
    demoState1.clientInit = true
    ∧ demoStalePoint ∈ (indexFile demoSettings demoApi (Except.ok "ab") demoFile
        demoState1).store :=
  ⟨by decide,
    (c1_edit_upserts_but_never_deletes demoSettings demoApi "ab" demoFile demoState1
      (by decide)).1 demoStalePoint (by decide) (by decide)⟩

/-! ## Lemmas: payload lookup and delete-by-file -/

theorem objGet_append (a b : JsObject) (k : String) :
    objGet (a ++ b) k
      = match objGet b k with
        | some v => some v
        | none => objGet a k := by
  induction a with
  | nil =>
    cases h : objGet b k <;> simp [objGet, h]
  | cons kv a ih =>
    obtain ⟨k2, v⟩ := kv
    simp only [List.cons_append, objGet, List.append_eq]
    rw [ih]
    cases hb : objGet b k with
    | some vb => rfl
    | none => rfl

theorem objGet_eq_none_of_keys_ne (o : JsObject) (k : String)
    (h : ∀ kv ∈ o, kv.1 ≠ k) : objGet o k = none := by
  induction o with
  | nil => rfl
  | cons kv o ih =>
    obtain ⟨k2, v⟩ := kv
    have h2 : (k2 == k) = false := by
      simp [h (k2, v) (List.mem_cons_self _ _)]
    simp only [objGet, ih (fun x hx => h x (List.mem_cons_of_mem _ hx)), h2]
    simp

theorem chunkBody_metadata (chunkSize overlapSize : Nat) (meta : JsObject) (ext : String)
    (t : List Char) (c : ChunkData) (hc : c ∈ chunkBody chunkSize overlapSize meta ext t) :
    c.metadata = mkChunkMeta meta ext
      ((t.length + (chunkSize - overlapSize) - 1) / (chunkSize - overlapSize)) := by
  unfold chunkBody at hc
  split at hc
  · simp at hc
  · exact chunkGo_metadata chunkSize (chunkSize - overlapSize) meta ext t (t.length + 1) 0 c hc

theorem chunkContent_metadata (settings : VectorSyncSettings) (content : String)
    (file : TFile) (c : ChunkData) (hc : c ∈ chunkContent settings content file) :
    c.metadata = mkChunkMeta (contentMetadata content) file.extension
      (((contentBody content).length + (settings.chunkSize - settings.overlapSize) - 1)
        / (settings.chunkSize - settings.overlapSize)) := by
  unfold chunkContent at hc
  exact chunkBody_metadata settings.chunkSize settings.overlapSize (contentMetadata content)
    file.extension (contentBody content) c hc

theorem successfulPoints_payload_filePath (settings : VectorSyncSettings)
    (api : String → Option (List Int)) (content : String) (file : TFile)
    (hfm : ∀ kv ∈ contentMetadata content, kv.1 ≠ "filePath")
    (q : QdrantPoint) (hq : q ∈ successfulPoints settings api content file) :
    objGet q.payload "filePath" = some (JsonVal.str file.path) := by
  unfold successfulPoints at hq
  rcases List.mem_filterMap.mp hq with ⟨c, hc, hpoint⟩
  unfold pointOfChunk at hpoint
  cases hgen : (generateEmbedding settings api c.text).1 with
  | none =>
    rw [hgen] at hpoint
    simp at hpoint
  | some v =>
    rw [hgen] at hpoint
    simp only [Option.map_some'] at hpoint
    have h3 := Option.some.inj hpoint
    have hpay : q.payload = (chunkRecord file c v).metadata := by
      rw [← h3]
    rw [hpay]
    unfold chunkRecord
    simp only []
    rw [objGet_append]
    have hcm := chunkContent_metadata settings content file c hc
    rw [hcm]
    unfold mkChunkMeta
    rw [objGet_append]
    have h4 : objGet [("fileExtension", JsonVal.str file.extension),
        ("totalChunks", JsonVal.num (((contentBody content).length
          + (settings.chunkSize - settings.overlapSize) - 1)
          / (settings.chunkSize - settings.overlapSize)))] "filePath" = none := by
      apply objGet_eq_none_of_keys_ne
      intro kv hkv
      rcases List.mem_cons.mp hkv with h | h
      · rw [h]
        show ("fileExtension" : String) ≠ "filePath"
        decide
      · rcases List.mem_singleton.mp h with h2
        rw [h2]
        show ("totalChunks" : String) ≠ "filePath"
        decide
    rw [h4, objGet_eq_none_of_keys_ne (contentMetadata content) "filePath" hfm]
    have h5 : objGet [("fileName", JsonVal.str file.basename),
        ("chunkIndex", JsonVal.num c.index),
        ("lastModified", JsonVal.num file.mtime)] "filePath" = none := by
      apply objGet_eq_none_of_keys_ne
      intro kv hkv
      rcases List.mem_cons.mp hkv with h | h
      · rw [h]
        show ("fileName" : String) ≠ "filePath"
        decide
      · rcases List.mem_cons.mp h with h2 | h2
        · rw [h2]
          show ("chunkIndex" : String) ≠ "filePath"
          decide
        · rcases List.mem_singleton.mp h2 with h3
          rw [h3]
          show ("lastModified" : String) ≠ "filePath"
          decide
    show objGet (("filePath", JsonVal.str file.path) :: _) "filePath"
        = some (JsonVal.str file.path)
    simp only [objGet, h5]
    rfl

theorem contains_eq_elem {α : Type} [BEq α] (l : List α) (a : α) :
    l.contains a = l.elem a := rfl

theorem deleteFromQdrantStore_complete (store : List QdrantPoint) (path : String)
    (h : (store.filter (fun p => payloadFilePathIs p path)).length ≤ 1000) :
    ∀ p ∈ deleteFromQdrantStore store path, payloadFilePathIs p path = false := by
  intro p hp
  have htake : (store.filter (fun p => payloadFilePathIs p path)).take 1000
      = store.filter (fun p => payloadFilePathIs p path) := List.take_of_length_le h
  have hids : deleteIdsOf store path
      = (store.filter (fun p => payloadFilePathIs p path)).map (fun p => p.id) := by
    unfold deleteIdsOf
    rw [htake]
  unfold deleteFromQdrantStore at hp
  cases hres : payloadFilePathIs p path with
  | false => rfl
  | true =>
    exfalso
    split at hp
    · rename_i hempty
      have hmemf : p ∈ store.filter (fun q => payloadFilePathIs q path) :=
        List.mem_filter.mpr ⟨hp, hres⟩
      rw [hids, List.isEmpty_iff] at hempty
      have hnil : store.filter (fun q => payloadFilePathIs q path) = [] :=
        List.map_eq_nil_iff.mp hempty
      rw [hnil] at hmemf
      simp at hmemf
    · rcases List.mem_filter.mp hp with ⟨hmem, hnotin⟩
      have hmemf : p ∈ store.filter (fun q => payloadFilePathIs q path) :=
        List.mem_filter.mpr ⟨hmem, hres⟩
      have hid : p.id ∈ (store.filter (fun q => payloadFilePathIs q path)).map
          (fun q => q.id) := List.mem_map_of_mem _ hmemf
      rw [← hids] at hid
      have helem := List.elem_eq_true_of_mem hid
      rw [← contains_eq_elem] at helem
      rw [helem] at hnotin
      simp at hnotin

theorem foldl_upsert_no_new_match (L s : List QdrantPoint) (path : String)
    (hs : ∀ p ∈ s, payloadFilePathIs p path = false)
    (hL : ∀ q ∈ L, payloadFilePathIs q path = false) :
    ∀ p ∈ L.foldl upsertPoint s, payloadFilePathIs p path = false := by
  intro p hp
  rcases mem_of_mem_foldl_upsert L s p hp with h | h
  · exact hs p h
  · exact hL p h

/-! ## Claim C2 -/

theorem removeFromIndex_clientInit (settings : VectorSyncSettings) (st : SyncState)
    (path : String) : (removeFromIndex settings st path).clientInit = st.clientInit := by
  unfold removeFromIndex
  split <;> rfl

theorem removeFromIndex_store_of_client (settings : VectorSyncSettings) (st : SyncState)
    (path : String) (h : st.clientInit = true) :
    (removeFromIndex settings st path).store = deleteFromQdrantStore st.store path := by
  unfold removeFromIndex
  simp [h]

/-- The record left in the store for the old path `a.md`. -/
def oldPoint : QdrantPoint :=
  { id := "a.md_chunk_0", vector := [1], payload := [("filePath", JsonVal.str "a.md")] }

/-- State holding one indexed chunk of `a.md`. -/
def renameState : SyncState := { demoState with store := [oldPoint] }

/-- The file after a rename to a path that no longer matches the sync rules. -/
def renamedAwayFile : TFile := { path := "a.txt", basename := "a", extension := "txt", mtime := 1 }

/-- The file after a rename to a path that still matches the sync rules. -/
def renamedToFile : TFile := { path := "b.md", basename := "b", extension := "md", mtime := 7 }

/-- C2 counterexample: rename `a.md` to `a.txt` with the all-markdown rule
set. The rename handler gates on `matchesSyncRules` of the file at its NEW
path, which no longer matches, so `removeFromIndex(oldPath)` is never called:
the state is returned untouched and one record with payload
`filePath = "a.md"` remains — contradicting the claim that zero old-path
records remain even when the new path does not match the sync rules. -/
theorem c2_counterexample :
    handleRenameEvent demoSettings demoApi (Except.ok "x") renamedAwayFile "a.md" renameState
      = Except.ok renameState
    ∧ (renameState.store.filter (fun p => payloadFilePathIs p "a.md")).length = 1 := by
  refine ⟨by decide, by decide⟩

/-- C2 amended: delete/rename removal is complete only under the conditions
the code actually provides. If the Qdrant client is initialized, the old path
has at most 1000 records (the search-then-delete strategy is bounded by the
search limit 1000), the RENAMED file's new path still matches the sync rules
(otherwise the rename handler skips removal entirely, see the
counterexample), the new path differs from the old one, and the re-indexed
content's front matter does not bind the key `filePath`, then: removal
deletes every old-path record, the rename handler is removal followed by
re-indexing, no old-path record exists after the rename is fully processed,
and a delete event removes every record of the deleted file's path. -/
theorem c2_delete_and_rename_completeness (settings : VectorSyncSettings)
    (api : String → Option (List Int)) (readRes : Except String String)
    (file : TFile) (oldPath : String) (st : SyncState)
    (hcl : st.clientInit = true)
    (hm : matchesSyncRules settings file = Except.ok true)
    (hcount : (st.store.filter (fun p => payloadFilePathIs p oldPath)).length ≤ 1000)
    (hne : file.path ≠ oldPath)
    (hfm : ∀ c, readRes = Except.ok c → ∀ kv ∈ contentMetadata c, kv.1 ≠ "filePath") :
    (∀ p ∈ (removeFromIndex settings st oldPath).store,
        payloadFilePathIs p oldPath = false)
    ∧ handleRenameEvent settings api readRes file oldPath st
        = Except.ok (indexFile settings api readRes file (removeFromIndex settings st oldPath))
    ∧ (∀ p ∈ (indexFile settings api readRes file
          (removeFromIndex settings st oldPath)).store,
        payloadFilePathIs p oldPath = false)
    ∧ handleDeleteEvent settings file st = Except.ok (removeFromIndex settings st file.path)
    ∧ ((st.store.filter (fun p => payloadFilePathIs p file.path)).length ≤ 1000 →
        ∀ p ∈ (removeFromIndex settings st file.path).store,
          payloadFilePathIs p file.path = false) := by
  have hremoved : ∀ p ∈ (removeFromIndex settings st oldPath).store,
      payloadFilePathIs p oldPath = false := by
    rw [removeFromIndex_store_of_client settings st oldPath hcl]
    exact deleteFromQdrantStore_complete st.store oldPath hcount
  refine ⟨hremoved, ?_, ?_, ?_, ?_⟩
  · unfold handleRenameEvent
    rw [hm]
    rfl
  · cases readRes with
    | error e =>
      rw [indexFile_store_error]
      exact hremoved
    | ok content =>
      have hcl2 : (removeFromIndex settings st oldPath).clientInit = true := by
        rw [removeFromIndex_clientInit]
        exact hcl
      have hst := indexFile_store_ok settings api content file
        (removeFromIndex settings st oldPath)
      rw [if_pos hcl2] at hst
      rw [hst]
      apply foldl_upsert_no_new_match _ _ _ hremoved
      intro q hq
      have hobj := successfulPoints_payload_filePath settings api content file
        (hfm content rfl) q hq
      unfold payloadFilePathIs
      rw [hobj]
      simp [hne]
  · unfold handleDeleteEvent
    rw [hm]
    rfl
  · intro hcount2
    rw [removeFromIndex_store_of_client settings st file.path hcl]
    exact deleteFromQdrantStore_complete st.store file.path hcount2

/-- Witness for C2's amended theorem: renaming `a.md` to `b.md` (still
matching the markdown rule) with one stored `a.md` record and the content
`"hello"` — all hypotheses hold, and after removal-plus-reindex the store
holds zero records with payload `filePath = "a.md"`. -/
theorem c2_delete_and_rename_completeness_witness :
    renameState.clientInit = true
    ∧ matchesSyncRules demoSettings renamedToFile = Except.ok true
    ∧ ((indexFile demoSettings demoApi (Except.ok "hello") renamedToFile
        (removeFromIndex demoSettings renameState "a.md")).store.filter
          (fun p => payloadFilePathIs p "a.md")).length = 0 := by
  refine ⟨by decide, by decide, ?_⟩
  have h := (c2_delete_and_rename_completeness demoSettings demoApi (Except.ok "hello")
    renamedToFile "a.md" renameState (by decide) (by decide) (by decide) (by decide)
    (by
      intro c hc kv hkv
      have hch : "hello" = c := by injection hc
      rw [← hch] at hkv
      have hnil : contentMetadata "hello" = [] := rfl
      rw [hnil] at hkv
      simp at hkv)).2.2.1
  have hnil2 : (indexFile demoSettings demoApi (Except.ok "hello") renamedToFile
      (removeFromIndex demoSettings renameState "a.md")).store.filter
        (fun p => payloadFilePathIs p "a.md") = [] := by
    rw [List.filter_eq_nil_iff]
    intro p hp
    simp [h p hp]
  rw [hnil2]
  rfl

/-! ## Claim C3 -/

/-- C3 counterexample: with the OpenAI backend configured and an embedding
call that fails, `searchSimilar` returns `Except.ok []` — the silently
returned empty result list — instead of propagating the failure as an error:
its own `catch` swallows the `Error` it throws for the failed query
embedding. -/
theorem c3_counterexample :
    searchSimilar demoSettings (fun _ => none) true (fun _ _ => []) "query" 10
      = Except.ok [] := by
  decide

/-- C3 amended: `searchSimilar` never propagates an embedding failure — it
always returns a value (its `try`/`catch` wraps the whole body), and whenever
embedding the query fails it logs and returns the empty result list
`Except.ok []` in place of the error. -/
theorem c3_search_swallows_embedding_failure (settings : VectorSyncSettings)
    (api : String → Option (List Int)) (client : Bool)
    (qdrantAnswer : List Int → Nat → List QdrantPoint) (query : String) (limit : Nat)
    (hfail : (generateEmbedding settings api query).1 = none) :
    searchSimilar settings api client qdrantAnswer query limit = Except.ok []
    ∧ ∀ e, searchSimilar settings api client qdrantAnswer query limit ≠ Except.error e := by
  unfold searchSimilar
  rw [hfail]
  exact ⟨rfl, fun e h => by cases h⟩

/-- Witness for C3's amended theorem: the concrete failing-embedding scenario
satisfies the hypothesis and yields the silent `Except.ok []`. -/
theorem c3_search_swallows_embedding_failure_witness :
    (generateEmbedding demoSettings (fun _ => none) "query").1 = none
    ∧ searchSimilar demoSettings (fun _ => none) true (fun _ _ => []) "query" 10
        = Except.ok [] :=
  ⟨by decide,
    (c3_search_swallows_embedding_failure demoSettings (fun _ => none) true
      (fun _ _ => []) "query" 10 (by decide)).1⟩

/-! ## Claim C5 -/

/-- C5 (code bug): the glob translation first replaces `**` with `.*` and
then replaces every remaining `*` — including the one inside the freshly
inserted `.*` — with `[^/]*`, so `**` compiles to `.[^/]*` (one arbitrary
character followed by a run of non-separators) instead of matching any
sequence of path segments. Concretely, `"templates/**"` compiles to the
regex `templates/.[^/]*` and fails to match `templates/a/b.md`, the nested
path the claim requires it to match; it still matches the single-segment
`templates/a.md`. The `*` and `?` translations behave as the claim states. -/
theorem c5_doublestar_translation_bug :
    globToRegexStr "templates/**" = "templates/.[^/]*"
    ∧ matchesPattern "templates/a/b.md" "templates/**" = Except.ok false
    ∧ matchesPattern "templates/a.md" "templates/**" = Except.ok true
    ∧ matchesPattern "docs/abc" "docs/*" = Except.ok true
    ∧ matchesPattern "docs/a/b" "docs/*" = Except.ok false
    ∧ matchesPattern "abc" "a?c" = Except.ok true
    ∧ matchesPattern "ac" "a?c" = Except.ok false := by
  refine ⟨by decide, by decide, by decide, by decide, by decide, by decide, by decide⟩

/-! ## Claim C7 -/

/-- A rule whose glob pattern compiles to an invalid regex: the translation
leaves `(` untouched, and `new RegExp("^($")` throws a SyntaxError. -/
def malformedRule : SyncRule :=
  { id := "bad", name := "Bad Pattern", enabled := true, ruleType := .pattern,
    pattern := "(", exclude := [] }

/-- Settings whose first rule is malformed and whose second rule would match
any markdown file. -/
def malformedSettings : VectorSyncSettings :=
  { demoSettings with syncRules := [malformedRule, markdownRule] }

/-- A markdown file the second (well-formed) rule matches. -/
def mdFile : TFile := { path := "a.md", basename := "a", extension := "md", mtime := 0 }

/-- C7 counterexample: with an enabled malformed pattern rule first and the
markdown rule second, rule evaluation on `a.md` throws — `new RegExp` raises
a SyntaxError that nothing catches — even though the claim requires the
malformed pattern to degrade to never-matches, in which case evaluation
would have continued and returned true via the markdown rule (as the second
conjunct shows). -/
theorem c7_counterexample :
    matchesSyncRules malformedSettings mdFile
      = Except.error "invalid or unsupported regex construct"
    ∧ evaluateRule mdFile markdownRule = Except.ok true := by
  refine ⟨by decide, by decide⟩

/-- C7 amended: a malformed glob pattern does not degrade to never-matches —
`matchesPattern` throws while compiling the regex, the exception propagates
out of the rule-evaluation loop, and the remaining rules are never
evaluated: for any file and any list of further rules, evaluation of a rule
list starting with the malformed rule is the SyntaxError. -/
theorem c7_malformed_pattern_raises (file : TFile) (rest : List SyncRule) :
    matchesSyncRulesGo file (malformedRule :: rest)
      = Except.error "invalid or unsupported regex construct" := by
  have hpat : matchesPattern file.path "("
      = Except.error "invalid or unsupported regex construct" := by
    unfold matchesPattern
    have hparse : parseRegex (globToRegexStr "(")
        = Except.error "invalid or unsupported regex construct" := by decide
    rw [hparse]
    rfl
  have hrule : evaluateRule file malformedRule
      = Except.error "invalid or unsupported regex construct" := by
    unfold evaluateRule
    exact hpat
  unfold matchesSyncRulesGo
  rw [show (!malformedRule.enabled) = false from rfl]
  rw [if_neg (by simp : ¬(false = true))]
  rw [hrule]
  rfl

/-! ## Claim C8 -/

/-- Settings requesting dimension 1536 for the same collection name. -/
def mismatchSettings : VectorSyncSettings := { demoSettings with dimension := 1536 }

/-- C8 counterexample: `ensureCollection` with a requested dimension of 1536
while the existing collection `obsidian-vault` has dimension 512 silently
changes nothing — the source only checks for the collection NAME, never
compares dimensions, and wraps everything in a `catch` that swallows errors,
so the call succeeds silently instead of failing loudly. (The model's return
carries no error channel precisely because the source cannot fail here.) -/
theorem c8_counterexample :
    mismatchSettings.dimension = 1536
    ∧ ensureCollection mismatchSettings true [("obsidian-vault", 512)]
        = [("obsidian-vault", 512)]
    ∧ (512 : Nat) ≠ 1536 := by
  refine ⟨by decide, by decide, by decide⟩

/-- C8 amended: `ensureCollection` is an idempotent create-if-absent keyed on
the collection NAME only: absent collections are created with the requested
dimension; an existing collection of the same name silently satisfies the
call whatever its dimension (no dimension comparison, no error); without a
client nothing happens; and repeating the call changes nothing. -/
theorem c8_ensure_collection_name_only (settings : VectorSyncSettings) (client : Bool)
    (cols : List (String × Nat)) :
    (cols.any (fun col => col.1 == settings.collectionName) = true →
      ensureCollection settings client cols = cols)
    ∧ (client = true →
        cols.any (fun col => col.1 == settings.collectionName) = false →
        ensureCollection settings client cols
          = cols ++ [(settings.collectionName, settings.dimension)])
    ∧ (client = false → ensureCollection settings client cols = cols)
    ∧ ensureCollection settings client (ensureCollection settings client cols)
        = ensureCollection settings client cols := by
  refine ⟨?_, ?_, ?_, ?_⟩
  · intro hex
    unfold ensureCollection
    cases client with
    | false => rfl
    | true => simp [hex]
  · intro hcl hex
    unfold ensureCollection
    rw [hcl]
    simp [hex]
  · intro hcl
    unfold ensureCollection
    rw [hcl]
    rfl
  · cases hcl : client with
    | false =>
      unfold ensureCollection
      rfl
    | true =>
      by_cases hex : cols.any (fun col => col.1 == settings.collectionName) = true
      · unfold ensureCollection
        simp [hex]
      · have hex2 : cols.any (fun col => col.1 == settings.collectionName) = false := by
          cases h : cols.any (fun col => col.1 == settings.collectionName)
          · rfl
          · exact absurd h hex
        have hfirst : ensureCollection settings true cols
            = cols ++ [(settings.collectionName, settings.dimension)] := by
          unfold ensureCollection
          simp [hex2]
        rw [hfirst]
        unfold ensureCollection
        have hnow : (cols ++ [(settings.collectionName, settings.dimension)]).any
            (fun col => col.1 == settings.collectionName) = true := by
          rw [List.any_append]
          simp
        simp [hnow]

/-- Witness for C8's amended theorem: with the existing 512-dimension
collection present, the name-exists hypothesis holds and the 1536-dimension
request leaves the collection list unchanged. -/
theorem c8_ensure_collection_name_only_witness :
    ([(("obsidian-vault" : String), (512 : Nat))].any
        (fun col => col.1 == mismatchSettings.collectionName)) = true
    ∧ ensureCollection mismatchSettings true [("obsidian-vault", 512)]
        = [("obsidian-vault", 512)] :=
  ⟨by decide,
    (c8_ensure_collection_name_only mismatchSettings true
      [("obsidian-vault", 512)]).1 (by decide)⟩

/-! ## Claim C9 -/

/-- The file of the partial-embedding-failure scenario. -/
def errFile : TFile := { path := "f.md", basename := "f", extension := "md", mtime := 9 }

/-- An embedding oracle that fails exactly on the second chunk's text
(`"defg"`, the middle of the three chunks of `"abcdefg"` at size 4 / step 3)
and succeeds with `[2]` elsewhere. -/
def errApi : String → Option (List Int) := fun t => if t == "defg" then none else some [2]

/-- The state after indexing `f.md` with content `"abcdefg"` under `errApi`:
chunk 1 of 3 fails to embed. -/
def errRun : SyncState := indexFile demoSettings errApi (Except.ok "abcdefg") errFile demoState

/-- The upserted record of chunk 0. -/
def errPoint0 : QdrantPoint :=
  { id := "f.md_chunk_0", vector := [2],
    payload := [("filePath", JsonVal.str "f.md"), ("fileName", JsonVal.str "f"),
                ("chunkIndex", JsonVal.num 0), ("lastModified", JsonVal.num 9),
                ("fileExtension", JsonVal.str "md"), ("totalChunks", JsonVal.num 3)] }

/-- The upserted record of chunk 2. -/
def errPoint2 : QdrantPoint :=
  { id := "f.md_chunk_2", vector := [2],
    payload := [("filePath", JsonVal.str "f.md"), ("fileName", JsonVal.str "f"),
                ("chunkIndex", JsonVal.num 2), ("lastModified", JsonVal.num 9),
                ("fileExtension", JsonVal.str "md"), ("totalChunks", JsonVal.num 3)] }

/-- C9 counterexample: when the embedding backend fails for chunk 2 of 3,
`indexFile` completes normally — `generateEmbedding` swallows the failure and
returns `null`, the chunk is merely skipped, so the `catch` never runs — and
the overall file status published at the end is `ready`, not the `error` the
claim requires. -/
theorem c9_counterexample :
    errRun.status = SyncStatus.ready ∧ SyncStatus.ready ≠ SyncStatus.error := by
  refine ⟨by decide, by decide⟩

/-- C9 amended: with the embedding backend failing for chunk 2 of 3, chunks
1 and 3 are upserted and not rolled back, chunk 2 is skipped with the
failure logged inside the embedding provider (a generic embedding-API error,
not tied to the chunk's identity), the sync queue is drained — but the
overall file status reports `ready` (the success path), not `error`: the
partial failure is invisible in the published status. -/
theorem c9_partial_failure_logged_but_status_ready :
    lookupStore errRun.store "f.md_chunk_0" = some errPoint0
    ∧ lookupStore errRun.store "f.md_chunk_1" = none
    ∧ lookupStore errRun.store "f.md_chunk_2" = some errPoint2
    ∧ errRun.log = [LogEvent.embedApiError]
    ∧ errRun.status = SyncStatus.ready
    ∧ errRun.queue = [] := by
  refine ⟨by decide, by decide, by decide, by decide, by decide, by decide⟩

end VectorSync
